import Mathlib

/-!
Shallow embedding of the `wol` command-line volume controller
(src/main.rs and src/args.rs), together with theorems settling the
specification claims about it.

Modelling conventions:
- Rust `f32` levels are modelled as `ℚ`; the claims under study concern
  branch structure, exact (bit-exact) comparisons, clamping and scaling,
  all of which are faithfully mirrored by exact rational arithmetic.
- Rust `&str` values are modelled as `List Char`.
- The external device is an opaque capability; `commit` returns the list
  of writes it would issue, in order, instead of performing them.  An
  error result carries no writes, mirroring that the source issues no
  write before the guard check.
- A Rust `panic!` from out-of-bounds slice indexing is modelled as
  `Option.none`.
- Static error message strings of the source are modelled as an error
  enumeration with one constructor per distinct message text.
-/

namespace Wol

/-- Rust `f32::clamp(x, 0.0, 1.0)`: below the lower bound gives the
lower bound, above the upper bound gives the upper bound. -/
def clamp01 (x : ℚ) : ℚ := if x < 0 then 0 else if 1 < x then 1 else x

/-- Kinds of Rust `std::num::IntErrorKind` reachable when parsing an
unsigned integer (the `Zero` kind is unreachable for `u8`/`u32`, as the
source notes). -/
inductive IntErr where
  | empty
  | invalidDigit
  | posOverflow
deriving DecidableEq

/-- Numeric value of a decimal digit character. -/
def digitVal (c : Char) : Nat := c.toNat - 48

/-- Digit-accumulation loop of Rust `str::parse` for unsigned integers:
left to right, a non-digit fails with `invalidDigit`, exceeding `maxV`
fails with `posOverflow`. -/
def parseDigits (maxV : Nat) : Nat → List Char → Except IntErr Nat
  | acc, [] => .ok acc
  | acc, c :: rest =>
    if c.isDigit then
      if maxV < acc * 10 + digitVal c then .error .posOverflow
      else parseDigits maxV (acc * 10 + digitVal c) rest
    else .error .invalidDigit

/-- Rust `str::parse::<uN>()` with maximum value `maxV`: empty input is
`empty`, a lone sign is `invalidDigit`, an optional leading plus sign is
accepted, then digits accumulate. -/
def parseUnsigned (maxV : Nat) : List Char → Except IntErr Nat
  | [] => .error .empty
  | ['+'] => .error .invalidDigit
  | '+' :: c :: rest => parseDigits maxV 0 (c :: rest)
  | s => parseDigits maxV 0 s

/-- Maximum value of Rust `u32`. -/
def U32MAX : Nat := 2 ^ 32 - 1

/-- Distinct static error messages of the adjustment parser in
src/main.rs; one constructor per distinct message string:
- `missingValue`: missing a value
- `valueNotInRange`: the value must be an integer from 0 to 100
  (produced for both non-numeric input and `u8` overflow)
- `missingChanNum`: missing a channel number after c
- `chanNumNotInRange`: expected an channel number as an integer from
  0 to 2^32 after c
- `badChannel`: the channel value must be one of L, R, A, M or an
  integer between 0 and 2^32 -/
inductive ParseErr where
  | missingValue
  | valueNotInRange
  | missingChanNum
  | chanNumNotInRange
  | badChannel
deriving DecidableEq

/-- `enum Op` of src/main.rs. -/
inductive Op where
  | Set
  | Inc
  | Dec
deriving DecidableEq

/-- `enum Channel` of src/main.rs (`N` holds a `u32`). -/
inductive Channel where
  | Master
  | All
  | N (n : Nat)
deriving DecidableEq

/-- `enum Value` of src/main.rs (`N` holds a `u8`, `Channel` a `u32`). -/
inductive Value where
  | N (n : Nat)
  | MasterChannel
  | Channel (n : Nat)
deriving DecidableEq

/-- `struct Adjust` of src/main.rs. -/
structure Adjust where
  op : Op
  chan : Channel
  val : Value
deriving DecidableEq

/-- Rust `s.strip_prefix(the characters c and C)`. -/
def stripC : List Char → Option (List Char)
  | 'c' :: rest => some rest
  | 'C' :: rest => some rest
  | _ => none

/-- `Value::parse` of src/main.rs. -/
def Value.parse (s : List Char) : Except ParseErr Value :=
  if s = ['m'] ∨ s = ['M'] then .ok .MasterChannel
  else if s = ['l'] ∨ s = ['L'] then .ok (.Channel 0)
  else if s = ['r'] ∨ s = ['R'] then .ok (.Channel 1)
  else
    match stripC s with
    | some rest =>
      match parseUnsigned U32MAX rest with
      | .ok n => .ok (.Channel n)
      | .error .empty => .error .missingChanNum
      | .error _ => .error .chanNumNotInRange
    | none =>
      match parseUnsigned 255 s with
      | .ok n => .ok (.N n)
      | .error .empty => .error .missingValue
      | .error _ => .error .valueNotInRange

/-- `Channel::parse` of src/main.rs. -/
def Channel.parse (s : List Char) : Except ParseErr Channel :=
  if s = ['l'] ∨ s = ['0'] ∨ s = ['L'] then .ok (.N 0)
  else if s = ['r'] ∨ s = ['1'] ∨ s = ['R'] then .ok (.N 1)
  else if s = ['a'] ∨ s = ['A'] then .ok .All
  else if s = [] ∨ s = ['m'] ∨ s = ['M'] then .ok .Master
  else .error .badChannel

/-- Rust `s.find(the characters +, - and =)` combined with the slicing
around the found index: returns the part before the first operator
character, that character, and the part after it. -/
def splitAtOp : List Char → Option (List Char × Char × List Char)
  | [] => none
  | c :: rest =>
    if c = '+' ∨ c = '-' ∨ c = '=' then some ([], c, rest)
    else
      match splitAtOp rest with
      | some (pre, o, post) => some (c :: pre, o, post)
      | none => none

/-- The chain of `strip_prefix` calls in the shorthand branch of
`Adjust::parse`: strips one leading channel letter, defaulting to
`Master`. -/
def stripChanLetter : List Char → Channel × List Char
  | 'L' :: rest => (.N 0, rest)
  | 'l' :: rest => (.N 0, rest)
  | 'R' :: rest => (.N 1, rest)
  | 'r' :: rest => (.N 1, rest)
  | 'a' :: rest => (.All, rest)
  | 'A' :: rest => (.All, rest)
  | 'm' :: rest => (.Master, rest)
  | 'M' :: rest => (.Master, rest)
  | s => (.Master, s)

/-- `Adjust::parse` of src/main.rs. -/
def Adjust.parse (s : List Char) : Except ParseErr Adjust :=
  match splitAtOp s with
  | none =>
    let p := stripChanLetter s
    match Value.parse p.2 with
    | .ok v => .ok ⟨.Set, p.1, v⟩
    | .error e => .error e
  | some (pre, o, post) =>
    let op : Op := if o = '+' then .Inc else if o = '-' then .Dec else .Set
    match Channel.parse pre with
    | .error e => .error e
    | .ok chan =>
      match Value.parse post with
      | .error e => .error e
      | .ok v => .ok ⟨op, chan, v⟩

/-! ### Token preprocessor (src/args.rs) -/

/-- Rust `s.split_once(sep)`: splits at the first occurrence of `sep`,
which is dropped. -/
def splitOnce (sep : Char) : List Char → Option (List Char × List Char)
  | [] => none
  | c :: rest =>
    if c = sep then some ([], rest)
    else
      match splitOnce sep rest with
      | some (a, b) => some (c :: a, b)
      | none => none

/-- The bundled-short-flag expansion loop of `Preprocessor::next`
(src/args.rs, the `char_indices` loop): each character `c` becomes a
token `-c`; the first character in the value-taking set `swv` stops the
loop, with the remaining characters (if any) emitted as one value
token. -/
def expandShorts (swv : List Char) : List Char → List (List Char)
  | [] => []
  | c :: rest =>
    if c ∈ swv then
      ['-', c] :: (if rest = [] then [] else [rest])
    else
      ['-', c] :: expandShorts swv rest

/-- Rust `flags.starts_with(a closure testing is_ascii_digit)`. -/
def headIsDigit : List Char → Bool
  | [] => false
  | c :: _ => c.isDigit

/-- One call of `Preprocessor::next` on raw token `s` (with the internal
buffer empty), together with the draining of the tokens it buffers:
returns the updated double-dash mode and the emitted tokens, in order.
This is a faithful per-token account of the iterator in src/args.rs,
whose buffer holds only tokens produced from the current raw token. -/
def ppStep (swv : List Char) (doubleDash : Bool) (s : List Char) :
    Bool × List (List Char) :=
  if doubleDash then (true, [s])
  else if s = ['-', '-'] then (true, [])
  else if s.take 2 = ['-', '-'] then
    match splitOnce '=' s with
    | some (flag, val) =>
      if 2 < flag.length then (false, [flag, val]) else (false, [s])
    | none => (false, [s])
  else
    match s with
    | [] => (false, [s])
    | c :: flags =>
      if c = '-' then
        if flags = [] then (false, [s])
        else if flags.length = 1 then (false, [s])
        else if headIsDigit flags then (false, [s])
        else (false, expandShorts swv flags)
      else (false, [s])

/-- The whole preprocessor as a left-to-right pass threading the sticky
double-dash mode. -/
def preprocessAll (swv : List Char) : Bool → List (List Char) → List (List Char)
  | _, [] => []
  | dd, s :: rest =>
    let p := ppStep swv dd s
    p.2 ++ preprocessAll swv p.1 rest

/-! ### Volume model (src/main.rs, struct Volume) -/

/-- `struct Volume` of src/main.rs, without the opaque device handle. -/
structure Volume where
  master : ℚ
  channels : List ℚ
  init_master : ℚ
  init_channels : List ℚ
deriving DecidableEq

/-- Rust `iterator.max_by(f32::total_cmp).unwrap_or(dflt)` over a list
of levels. -/
def listMax (dflt : ℚ) : List ℚ → ℚ
  | [] => dflt
  | x :: xs => xs.foldl max x

/-- `Volume::chan_count`. -/
def Volume.chan_count (v : Volume) : Nat := v.channels.length

/-- `Volume::set_channel` of src/main.rs: clamp, write the channel,
recompute `master` as the maximum channel (keeping the old master when
the channel list is empty). -/
def Volume.set_channel (v : Volume) (c : Nat) (val : ℚ) : Volume :=
  { v with channels := v.channels.set c (clamp01 val),
           master := listMax v.master (v.channels.set c (clamp01 val)) }

/-- `Volume::set_master` of src/main.rs: clamp, then the three cases
(full mute on zero, unmute-to-uniform from a zero master, otherwise
proportional scaling). -/
def Volume.set_master (v : Volume) (val : ℚ) : Volume :=
  if clamp01 val = 0 then
    { v with master := 0, channels := v.channels.map fun _ => 0 }
  else if v.master = 0 then
    { v with master := clamp01 val, channels := v.channels.map fun _ => clamp01 val }
  else
    { v with master := clamp01 val,
             channels := v.channels.map fun n => clamp01 val * (n / v.master) }

/-- One write issued to the device by `Volume::commit`. -/
inductive Write where
  | master (x : ℚ)
  | channel (i : Nat) (x : ℚ)
deriving DecidableEq

/-- The per-channel write loop of `Volume::commit`: iterates over the
zipped initial and current levels with their index, writing a channel
iff the master changed or the level differs from the snapshot (exact
comparison). -/
def channelWrites (masterChanged : Prop) [Decidable masterChanged] :
    Nat → List (ℚ × ℚ) → List Write
  | _, [] => []
  | i, p :: rest =>
    (if masterChanged ∨ p.1 ≠ p.2 then [Write.channel i p.2] else [])
      ++ channelWrites masterChanged (i + 1) rest

/-- The full sequence of writes `Volume::commit` issues once the safety
guard has passed: the master write iff the master changed (exact
comparison), then the per-channel loop. -/
def Volume.commitWrites (v : Volume) : List Write :=
  (if v.master ≠ v.init_master then [Write.master v.master] else [])
    ++ channelWrites (v.master ≠ v.init_master) 0 (v.init_channels.zip v.channels)

/-- The dedicated error of the commit safety guard (message: a screen
reader is detected; refusing to set the volume below 5%, with a hint to
use the force flag). -/
inductive CommitErr where
  | screenReaderGuard
deriving DecidableEq

/-- `Volume::commit` of src/main.rs.  The screen-reader probe
(src/screen_reader.rs, an external OS query) is passed in as the boolean
`sr`.  On success the returned list holds the device writes in issue
order; the error is returned before any write is computed, mirroring
that the source checks the guard before touching the device. -/
def Volume.commit (v : Volume) (force sr : Bool) : Except CommitErr (List Write) :=
  if force = false ∧ v.master < v.init_master ∧ v.master < 5 / 100 then
    if listMax 1 v.channels < listMax 1 v.init_channels ∧
        listMax 1 v.channels < 5 / 100 ∧ sr = true then
      .error .screenReaderGuard
    else .ok v.commitWrites
  else .ok v.commitWrites

/-! ### Applying adjustments (src/main.rs, Adjust::apply and run) -/

/-- The `Channel::All` loop of `Adjust::apply`: for each channel index
in order, read the current level and update it through `f`.  In-range
reads cannot panic, so this is total. -/
def Volume.applyToAll (v : Volume) (f : ℚ → ℚ) : Volume :=
  (List.range v.chan_count).foldl
    (fun acc c => acc.set_channel c (f (acc.channels.getD c 0))) v

/-- `Adjust::apply` of src/main.rs.  `none` models a Rust panic from
indexing `channels` out of bounds (`Volume::channel` does unchecked
slice indexing). -/
def Adjust.apply (a : Adjust) (v : Volume) : Option Volume :=
  match (match a.val with
         | .N n => some ((n : ℚ) / 100)
         | .MasterChannel => some v.master
         | .Channel c => v.channels.get? c) with
  | none => none
  | some val =>
    let f : ℚ → ℚ := fun old =>
      match a.op with
      | .Set => val
      | .Inc => clamp01 (old + val)
      | .Dec => clamp01 (old - val)
    match a.chan with
    | .Master => some (v.set_master (f v.master))
    | .N c =>
      match v.channels.get? c with
      | none => none
      | some old => some (v.set_channel c (f old))
    | .All => some (v.applyToAll f)

/-- The application loop of `run` (src/main.rs): apply each adjustment
in order; a panic (`none`) aborts. -/
def applyAdjusts : List Adjust → Volume → Option Volume
  | [], v => some v
  | a :: rest, v =>
    match a.apply v with
    | some v2 => applyAdjusts rest v2
    | none => none

/-- The range error of `run` (message: the device only has N channels). -/
inductive RunErr where
  | rangeError (chanCount : Nat)
deriving DecidableEq

/-- The validation performed by the first loop of `run`: only an
adjustment whose *target* channel is `Channel::N c` is checked against
the channel count; value references are not inspected. -/
def chanInRange (chanCount : Nat) (a : Adjust) : Bool :=
  match a.chan with
  | .N c => decide (c < chanCount)
  | _ => true

/-- The validate-then-apply phase of `run` (src/main.rs): the first loop
range-checks target channels and fails fast; the second loop applies the
adjustments (where `some none` records a panic during application). -/
def runAdjusts (v : Volume) (adjusts : List Adjust) : Except RunErr (Option Volume) :=
  if adjusts.all (chanInRange v.chan_count) = true then .ok (applyAdjusts adjusts v)
  else .error (.rangeError v.chan_count)

instance {ε α : Type} [DecidableEq ε] [DecidableEq α] : DecidableEq (Except ε α) :=
  fun a b =>
    match a, b with
    | .ok x, .ok y =>
      if h : x = y then isTrue (by rw [h])
      else isFalse (by intro hc; cases hc; exact h rfl)
    | .ok _, .error _ => isFalse (fun hc => Except.noConfusion hc)
    | .error _, .ok _ => isFalse (fun hc => Except.noConfusion hc)
    | .error x, .error y =>
      if h : x = y then isTrue (by rw [h])
      else isFalse (by intro hc; cases hc; exact h rfl)

/-! ## Theorems settling the claims -/

/-- C1: the run phase of src/main.rs validates only an adjustment whose
*target* is `Channel::N c` against the channel count; a `Value::Channel`
reference (the CurrentChannel value form, e.g. the adjustment `=c5`) is
not validated, so on a two-channel device it passes validation and the
application phase panics (models Rust index out of bounds as `none`)
instead of failing with the range error.  The third conjunct shows the
target form is indeed range-checked fail-fast. -/
theorem C1_value_reference_not_validated :
    Adjust.parse ("=c5".toList) = .ok ⟨.Set, .Master, .Channel 5⟩ ∧
    runAdjusts (Volume.mk (1/2) [1/2, 1/2] (1/2) [1/2, 1/2])
      [⟨.Set, .Master, .Channel 5⟩] = .ok none ∧
    runAdjusts (Volume.mk (1/2) [1/2, 1/2] (1/2) [1/2, 1/2])
      [⟨.Set, .N 5, .N 10⟩] = .error (.rangeError 2) :=
  ⟨rfl, rfl, rfl⟩

/-- C2: `Value::parse` of src/main.rs parses a plain value with
`str::parse::<u8>` and performs no range check against 100: the string
101 parses successfully to `Literal 101` instead of failing with an
out-of-range error.  The empty string does fail with the distinct
missing-value error; 256 (a `u8` overflow) and a non-numeric string both
fail with the *same* message (the value must be an integer from 0 to
100), so out-of-range and not-a-number are not distinct either. -/
theorem C2_literal_not_range_checked :
    Value.parse ("".toList) = .error .missingValue ∧
    Value.parse ("101".toList) = .ok (.N 101) ∧
    Value.parse ("256".toList) = .error .valueNotInRange ∧
    Value.parse ("12a".toList) = .error .valueNotInRange :=
  ⟨rfl, rfl, rfl, rfl⟩

/-- C7: `Channel::parse` of src/main.rs accepts only the digit strings 0
and 1 (alongside the letter forms); any other digit string, for example
the channel 2 in the adjustment 2=50, is rejected with the bad-channel
error, although the claim (and the programs own help text and error
message) promise every integer between 0 and 2^32. -/
theorem C7_digit_channel_rejected :
    Adjust.parse ("2=50".toList) = .error .badChannel ∧
    Adjust.parse ("0=50".toList) = .ok ⟨.Set, .N 0, .N 50⟩ ∧
    Adjust.parse ("1=50".toList) = .ok ⟨.Set, .N 1, .N 50⟩ :=
  ⟨rfl, rfl, rfl⟩

/-- C8 counterexample: parsing c2=50 does not yield
`{Set, Index 2, Literal 50}` — the substring before the operator, c2, is
not a valid channel expression for `Channel::parse`. -/
theorem C8_counterexample :
    Adjust.parse ("c2=50".toList) ≠ .ok ⟨.Set, .N 2, .N 50⟩ := by
  have h : Adjust.parse ("c2=50".toList) = .error .badChannel := rfl
  rw [h]
  exact fun hc => Except.noConfusion hc

/-- C8 (amended): parsing the adjustment string c2=50 fails with the
bad-channel parse error (the c-digits form is only a *value*
expression in this grammar, not a channel expression). -/
theorem C8_amended_parse_fails :
    Adjust.parse ("c2=50".toList) = .error .badChannel := rfl

/-- C9 counterexample: the token --x=val is *not* emitted unsplit — its
flag part --x has length 3 > 2, so the preprocessor splits it into --x
and val. -/
theorem C9_counterexample :
    ppStep ("di".toList) false ("--x=val".toList)
      ≠ (false, [("--x=val".toList)]) := by
  have h : ppStep ("di".toList) false ("--x=val".toList)
      = (false, [("--x".toList), ("val".toList)]) := rfl
  rw [h]
  decide

/-- C10 counterexample: the token --x is of the claimed form (a dash
followed by the two non-digit-leading characters -x, neither in the
value-taking set di), yet the preprocessor emits it unsplit as a long
flag rather than expanding it to the per-character tokens -- and -x. -/
theorem C10_counterexample :
    ppStep ("di".toList) false ("--x".toList)
      ≠ (false, [("--".toList), ("-x".toList)]) := by
  have h : ppStep ("di".toList) false ("--x".toList)
      = (false, [("--x".toList)]) := rfl
  rw [h]
  decide

/-- Splitting a list at its first separator occurrence: when the left
part is separator-free, `splitOnce` finds exactly that decomposition. -/
theorem splitOnce_sep_append (a b : List Char) (h : '=' ∉ a) :
    splitOnce '=' (a ++ '=' :: b) = some (a, b) := by
  induction a with
  | nil => simp [splitOnce]
  | cons c cs ih =>
    have hc : ¬ c = '=' := fun hc => h (by simp [hc])
    have hcs : '=' ∉ cs := fun hm => h (List.mem_cons_of_mem _ hm)
    simp [splitOnce, hc, ih hcs]

/-- C9 (amended): a long-flag token whose flag part has length > 2
(every token --name=val with name nonempty and = free) is split into
the two tokens --name and val; the degenerate token --=val, whose flag
part is exactly the two dashes (length 2, not > 2), is the only
equals-carrying long token emitted unsplit.  Contrary to the original
claim, --x=val also splits, since its flag part has length 3 > 2. -/
theorem C9_long_flag_split (swv f val : List Char) (hf : f ≠ []) (hne : '=' ∉ f) :
    ppStep swv false (('-' :: '-' :: f) ++ '=' :: val)
      = (false, [('-' :: '-' :: f), val]) ∧
    ppStep swv false ('-' :: '-' :: '=' :: val)
      = (false, ['-' :: '-' :: '=' :: val]) := by
  constructor
  · have hne2 : '=' ∉ ('-' :: '-' :: f) := by
      intro hm
      rcases List.mem_cons.mp hm with h1 | hm
      · exact absurd h1 (by decide)
      rcases List.mem_cons.mp hm with h1 | hm
      · exact absurd h1 (by decide)
      · exact hne hm
    have hsplit := splitOnce_sep_append ('-' :: '-' :: f) val hne2
    have hN : ¬ (('-' :: '-' :: f) ++ '=' :: val = ['-', '-']) := by
      cases f with
      | nil => exact absurd rfl hf
      | cons a as => simp
    have htake : (('-' :: '-' :: f) ++ '=' :: val).take 2 = ['-', '-'] := by rfl
    have hlen : 2 < ('-' :: '-' :: f).length := by
      cases f with
      | nil => exact absurd rfl hf
      | cons a as => simp [List.length]
    unfold ppStep
    rw [if_neg (by decide : ¬ (false = true))]
    rw [if_neg hN]
    rw [if_pos htake]
    rw [hsplit]
    exact if_pos hlen
  · have hsplit : splitOnce '=' ('-' :: '-' :: '=' :: val) = some (['-', '-'], val) :=
      splitOnce_sep_append ['-', '-'] val (by decide)
    have htake : ('-' :: '-' :: '=' :: val).take 2 = ['-', '-'] := by rfl
    unfold ppStep
    rw [if_neg (by decide : ¬ (false = true))]
    rw [if_neg (by simp : ¬ ('-' :: '-' :: '=' :: val = ['-', '-']))]
    rw [if_pos htake]
    rw [hsplit]
    exact if_neg (by decide)

/-- Witness for C9: with the value-taking set di, the token
--device=foo splits into --device and foo. -/
theorem C9_long_flag_split_witness :
    ppStep ("di".toList) false ("--device=foo".toList)
      = (false, [("--device".toList), ("foo".toList)]) :=
  (C9_long_flag_split ("di".toList) ("device".toList) ("foo".toList)
    (by decide) (by decide)).1

/-- The expansion loop emits one token per character when no character
takes a value. -/
theorem expandShorts_no_valuetakers (swv : List Char) :
    ∀ flags : List Char, (∀ c ∈ flags, c ∉ swv) →
      expandShorts swv flags = flags.map fun c => ['-', c] := by
  intro flags
  induction flags with
  | nil => intro _; rfl
  | cons c cs ih =>
    intro h
    have hc : c ∉ swv := h c (List.mem_cons_self c cs)
    have hcs : ∀ b ∈ cs, b ∉ swv := fun b hb => h b (List.mem_cons_of_mem c hb)
    simp [expandShorts, hc, ih hcs]

/-- The expansion loop stops at the first value-taking character,
emitting the remaining characters (if any) as one combined token. -/
theorem expandShorts_stop_at_valuetaker (swv : List Char) :
    ∀ (pre : List Char) (c : Char) (tail : List Char),
      (∀ b ∈ pre, b ∉ swv) → c ∈ swv →
      expandShorts swv (pre ++ c :: tail)
        = pre.map (fun b => ['-', b])
            ++ ['-', c] :: (if tail = [] then [] else [tail]) := by
  intro pre
  induction pre with
  | nil => intro c tail _ hc; simp [expandShorts, hc]
  | cons b bs ih =>
    intro c tail h hc
    have hb : b ∉ swv := h b (List.mem_cons_self b bs)
    have hbs : ∀ y ∈ bs, y ∉ swv := fun y hy => h y (List.mem_cons_of_mem b hy)
    simp [expandShorts, hb, ih c tail hbs hc]

/-- C10 (amended): for a cluster token -abc... — a dash followed by two
or more characters, the first being neither a digit nor itself a dash
(a leading second dash makes the token a long flag, handled by the
long-flag rule instead) — the preprocessor emits one token per
character when no character is value-taking, and stops at the first
value-taking character c, emitting the characters after c (if any) as
one combined value token. -/
theorem C10_cluster_expansion (swv : List Char) (a : Char) (rest : List Char)
    (hdash : a ≠ '-') (hdigit : a.isDigit = false) (hrest : rest ≠ []) :
    ((∀ c ∈ a :: rest, c ∉ swv) →
      ppStep swv false ('-' :: a :: rest)
        = (false, (a :: rest).map fun c => ['-', c])) ∧
    (∀ (pre : List Char) (c : Char) (tail : List Char),
      a :: rest = pre ++ c :: tail → (∀ b ∈ pre, b ∉ swv) → c ∈ swv →
      ppStep swv false ('-' :: a :: rest)
        = (false, pre.map (fun b => ['-', b])
            ++ ['-', c] :: (if tail = [] then [] else [tail]))) := by
  have hstep : ppStep swv false ('-' :: a :: rest)
      = (false, expandShorts swv (a :: rest)) := by
    have h1 : ¬ ('-' :: a :: rest = ['-', '-']) := by simp [hdash]
    have h2 : ¬ (('-' :: a :: rest).take 2 = ['-', '-']) := by simp [hdash]
    have h3 : ¬ (a :: rest = []) := by simp
    have h4 : ¬ ((a :: rest).length = 1) := by simp [hrest]
    have h5 : ¬ (headIsDigit (a :: rest) = true) := by simp [headIsDigit, hdigit]
    unfold ppStep
    rw [if_neg (by decide : ¬ (false = true))]
    rw [if_neg h1]
    rw [if_neg h2]
    dsimp only
    rw [if_pos (show ('-' : Char) = '-' from rfl)]
    rw [if_neg h3, if_neg h4, if_neg h5]
  constructor
  · intro h
    rw [hstep, expandShorts_no_valuetakers swv _ h]
  · intro pre c tail heq hpre hc
    rw [hstep, heq, expandShorts_stop_at_valuetaker swv pre c tail hpre hc]

/-- Witness for C10: with the value-taking set di, -abc expands to
-a -b -c, and -dfoo expands to -d foo. -/
theorem C10_cluster_expansion_witness :
    ppStep ("di".toList) false ("-abc".toList)
      = (false, [("-a".toList), ("-b".toList), ("-c".toList)]) ∧
    ppStep ("di".toList) false ("-dfoo".toList)
      = (false, [("-d".toList), ("foo".toList)]) := by
  constructor
  · exact (C10_cluster_expansion ("di".toList) 'a' ("bc".toList)
      (by decide) (by decide) (by decide)).1 (by decide)
  · exact (C10_cluster_expansion ("di".toList) 'd' ("foo".toList)
      (by decide) (by decide) (by decide)).2 [] 'd' ("foo".toList) rfl
      (by decide) (by decide)

/-- C3: the commit safety guard refuses with the dedicated screen-reader
error exactly when the force flag is off, the new master is strictly
below both the initial master and the 0.05 threshold, the new channel
maximum (default 1 when empty) is strictly below both the old channel
maximum (default 1 when empty) and 0.05, and the screen-reader probe
reports active; no writes accompany the error (the success value carries
the write list, the error carries none, and the source checks the guard
before touching the device).  With force on, the same state always
commits successfully and the writes proceed. -/
theorem C3_commit_guard_iff (v : Volume) (force sr : Bool) :
    (v.commit force sr = .error .screenReaderGuard ↔
      (force = false ∧ v.master < v.init_master ∧ v.master < 5 / 100 ∧
        listMax 1 v.channels < listMax 1 v.init_channels ∧
        listMax 1 v.channels < 5 / 100 ∧ sr = true)) ∧
    v.commit true sr = .ok v.commitWrites := by
  constructor
  · unfold Volume.commit
    split_ifs with h1 h2
    · constructor
      · intro _
        exact ⟨h1.1, h1.2.1, h1.2.2, h2.1, h2.2.1, h2.2.2⟩
      · intro _
        rfl
    · constructor
      · intro hc
        exact hc.elim
      · intro hh
        exact absurd ⟨hh.2.2.2.1, hh.2.2.2.2.1, hh.2.2.2.2.2⟩ h2
    · constructor
      · intro hc
        exact hc.elim
      · intro hh
        exact absurd ⟨hh.1, hh.2.1, hh.2.2.1⟩ h1
  · unfold Volume.commit
    rw [if_neg (by simp :
      ¬ ((true : Bool) = false ∧ v.master < v.init_master ∧ v.master < 5 / 100))]

/-- C4: `set_master` first clamps its argument to the unit interval and
then follows exactly three cases: a clamped value of zero mutes master
and every channel; a nonzero clamped value on a currently-zero master
sets master and every channel to the clamped value (unmute-to-uniform);
otherwise every channel becomes the clamped value times its ratio to the
old master, and master becomes the clamped value.  The closed conjuncts
check the two examples: muting then setting one half yields uniform
channels of one half, and from master 0.8 with channels 0.4 and 0.8,
setting 0.4 yields channels 0.2 and 0.4 with master 0.4. -/
theorem C4_set_master_three_cases (v : Volume) (x : ℚ) :
    (clamp01 x = 0 →
      (v.set_master x).master = 0 ∧
      (v.set_master x).channels = v.channels.map fun _ => 0) ∧
    (clamp01 x ≠ 0 → v.master = 0 →
      (v.set_master x).master = clamp01 x ∧
      (v.set_master x).channels = v.channels.map fun _ => clamp01 x) ∧
    (clamp01 x ≠ 0 → v.master ≠ 0 →
      (v.set_master x).master = clamp01 x ∧
      (v.set_master x).channels = v.channels.map fun n => clamp01 x * (n / v.master)) ∧
    (((Volume.mk (4/5) [2/5, 4/5] (4/5) [2/5, 4/5]).set_master 0).set_master (1/2)).channels
      = [1/2, 1/2] ∧
    ((Volume.mk (4/5) [2/5, 4/5] (4/5) [2/5, 4/5]).set_master (2/5)).channels
      = [1/5, 2/5] ∧
    ((Volume.mk (4/5) [2/5, 4/5] (4/5) [2/5, 4/5]).set_master (2/5)).master = 2/5 := by
  refine ⟨?_, ?_, ?_, ?_, ?_, ?_⟩
  · intro h0
    unfold Volume.set_master
    rw [if_pos h0]
    exact ⟨rfl, rfl⟩
  · intro h0 hm
    unfold Volume.set_master
    rw [if_neg h0, if_pos hm]
    exact ⟨rfl, rfl⟩
  · intro h0 hm
    unfold Volume.set_master
    rw [if_neg h0, if_neg hm]
    exact ⟨rfl, rfl⟩
  · norm_num [Volume.set_master, clamp01]
  · norm_num [Volume.set_master, clamp01]
  · norm_num [Volume.set_master, clamp01]

/-- Witness for C4: the unmute-to-uniform case at a concrete state. -/
theorem C4_set_master_three_cases_witness :
    ((Volume.mk 0 [0, 0] 0 [0, 0]).set_master (1/2)).master = clamp01 (1/2) ∧
    ((Volume.mk 0 [0, 0] 0 [0, 0]).set_master (1/2)).channels
      = [0, 0].map fun _ => clamp01 (1/2) :=
  (C4_set_master_three_cases (Volume.mk 0 [0, 0] 0 [0, 0]) (1/2)).2.1
    (by norm_num [clamp01]) rfl

/-- The clamp stays above the lower bound. -/
theorem clamp01_nonneg (x : ℚ) : 0 ≤ clamp01 x := by
  unfold clamp01
  split_ifs with h1 h2 <;> linarith

/-- The clamp stays below the upper bound. -/
theorem clamp01_le_one (x : ℚ) : clamp01 x ≤ 1 := by
  unfold clamp01
  split_ifs with h1 h2 <;> linarith

/-- A fold of binary maxima is bounded by a bound on the seed and the
elements. -/
theorem foldl_max_le {B : ℚ} :
    ∀ (l : List ℚ) (a : ℚ), a ≤ B → (∀ y ∈ l, y ≤ B) → l.foldl max a ≤ B := by
  intro l
  induction l with
  | nil => intro a ha _; exact ha
  | cons z zs ih =>
    intro a ha h
    exact ih (max a z) (max_le ha (h z (List.mem_cons_self _ _)))
      (fun y hy => h y (List.mem_cons_of_mem _ hy))

/-- A fold of binary maxima dominates any lower bound of its seed. -/
theorem le_foldl_max {b : ℚ} :
    ∀ (l : List ℚ) (a : ℚ), b ≤ a → b ≤ l.foldl max a := by
  intro l
  induction l with
  | nil => intro a ha; exact ha
  | cons z zs ih => intro a ha; exact ih (max a z) (le_trans ha (le_max_left _ _))

/-- The list maximum is bounded by a bound on the default and the
elements. -/
theorem listMax_le {d B : ℚ} (l : List ℚ) (hd : d ≤ B) (hl : ∀ y ∈ l, y ≤ B) :
    listMax d l ≤ B := by
  cases l with
  | nil => exact hd
  | cons z zs =>
    exact foldl_max_le zs z (hl z (List.mem_cons_self _ _))
      (fun y hy => hl y (List.mem_cons_of_mem _ hy))

/-- The list maximum is nonnegative when the default and all elements
are. -/
theorem listMax_nonneg {d : ℚ} (l : List ℚ) (hd : 0 ≤ d) (hl : ∀ y ∈ l, 0 ≤ y) :
    0 ≤ listMax d l := by
  cases l with
  | nil => exact hd
  | cons z zs => exact le_foldl_max zs z (hl z (List.mem_cons_self _ _))

/-- C5 counterexample: a state with master one half and a single channel
at nine tenths satisfies the claimed precondition (master and every
channel in the unit interval), yet `set_master 1` scales the channel to
nine fifths, outside the unit interval — the proportional branch does
not clamp the scaled channels. -/
theorem C5_counterexample :
    (0 ≤ (Volume.mk (1/2) [9/10] (1/2) [9/10]).master ∧
      (Volume.mk (1/2) [9/10] (1/2) [9/10]).master ≤ 1 ∧
      ∀ y ∈ (Volume.mk (1/2) [9/10] (1/2) [9/10]).channels, 0 ≤ y ∧ y ≤ 1) ∧
    ¬ (∀ y ∈ ((Volume.mk (1/2) [9/10] (1/2) [9/10]).set_master 1).channels, y ≤ 1) := by
  have hc : ((Volume.mk (1/2) [9/10] (1/2) [9/10]).set_master 1).channels = [9/5] := by
    norm_num [Volume.set_master, clamp01]
  constructor
  · refine ⟨by norm_num, by norm_num, ?_⟩
    intro y hy
    rw [List.mem_singleton] at hy
    rw [hy]
    norm_num
  · intro h
    have h2 := h (9/5) (by rw [hc]; exact List.mem_singleton_self _)
    linarith

/-- C5 (amended): in a state whose master and channels all lie in the
unit interval *and whose channels do not exceed the master* (the balance
property `set_channel` maintains but the constructor does not enforce),
any single `set_master` call, and any single `set_channel` call on an
in-range channel, leaves the master and every channel in the unit
interval. -/
theorem C5_amended_levels_stay_in_range (v : Volume)
    (hm0 : 0 ≤ v.master) (hm1 : v.master ≤ 1)
    (hch : ∀ y ∈ v.channels, 0 ≤ y ∧ y ≤ 1)
    (hbal : ∀ y ∈ v.channels, y ≤ v.master) :
    (∀ x : ℚ,
      0 ≤ (v.set_master x).master ∧ (v.set_master x).master ≤ 1 ∧
      ∀ y ∈ (v.set_master x).channels, 0 ≤ y ∧ y ≤ 1) ∧
    (∀ c, c < v.chan_count → ∀ x : ℚ,
      0 ≤ (v.set_channel c x).master ∧ (v.set_channel c x).master ≤ 1 ∧
      ∀ y ∈ (v.set_channel c x).channels, 0 ≤ y ∧ y ≤ 1) := by
  constructor
  · intro x
    unfold Volume.set_master
    split_ifs with h0 hm
    · refine ⟨le_refl 0, by norm_num, ?_⟩
      intro y hy
      obtain ⟨z, hz, hzy⟩ := List.mem_map.mp hy
      rw [← hzy]
      norm_num
    · refine ⟨clamp01_nonneg x, clamp01_le_one x, ?_⟩
      intro y hy
      obtain ⟨z, hz, hzy⟩ := List.mem_map.mp hy
      rw [← hzy]
      exact ⟨clamp01_nonneg x, clamp01_le_one x⟩
    · have hmpos : 0 < v.master := lt_of_le_of_ne hm0 (Ne.symm hm)
      refine ⟨clamp01_nonneg x, clamp01_le_one x, ?_⟩
      intro y hy
      obtain ⟨z, hz, hzy⟩ := List.mem_map.mp hy
      rw [← hzy]
      have hz0 : 0 ≤ z := (hch z hz).1
      have hzm : z ≤ v.master := hbal z hz
      have hdiv0 : 0 ≤ z / v.master := div_nonneg hz0 (le_of_lt hmpos)
      have hdiv1 : z / v.master ≤ 1 := (div_le_one hmpos).mpr hzm
      constructor
      · exact mul_nonneg (clamp01_nonneg x) hdiv0
      · calc clamp01 x * (z / v.master) ≤ 1 * 1 :=
              mul_le_mul (clamp01_le_one x) hdiv1 hdiv0 (by norm_num)
          _ = 1 := by norm_num
  · intro c _ x
    unfold Volume.set_channel
    refine ⟨?_, ?_, ?_⟩
    · apply listMax_nonneg _ hm0
      intro y hy
      rcases List.mem_or_eq_of_mem_set hy with h | h
      · exact (hch y h).1
      · rw [h]
        exact clamp01_nonneg x
    · apply listMax_le _ hm1
      intro y hy
      rcases List.mem_or_eq_of_mem_set hy with h | h
      · exact (hch y h).2
      · rw [h]
        exact clamp01_le_one x
    · intro y hy
      rcases List.mem_or_eq_of_mem_set hy with h | h
      · exact hch y h
      · rw [h]
        exact ⟨clamp01_nonneg x, clamp01_le_one x⟩

/-- Witness for C5: a balanced concrete state stays in range when the
master is pushed past the upper clamp bound. -/
theorem C5_amended_witness :
    0 ≤ ((Volume.mk (1/2) [1/2] (1/2) [1/2]).set_master 2).master ∧
    ((Volume.mk (1/2) [1/2] (1/2) [1/2]).set_master 2).master ≤ 1 ∧
    ∀ y ∈ ((Volume.mk (1/2) [1/2] (1/2) [1/2]).set_master 2).channels,
      0 ≤ y ∧ y ≤ 1 :=
  (C5_amended_levels_stay_in_range (Volume.mk (1/2) [1/2] (1/2) [1/2])
    (by norm_num) (by norm_num)
    (by intro y hy; rw [List.mem_singleton.mp hy]; norm_num)
    (by intro y hy; rw [List.mem_singleton.mp hy])).1 2

/-- The per-channel write loop never issues a master write. -/
theorem channelWrites_no_master (mc : Prop) [Decidable mc] :
    ∀ (ps : List (ℚ × ℚ)) (i : Nat) (x : ℚ), Write.master x ∉ channelWrites mc i ps := by
  intro ps
  induction ps with
  | nil => intro i x h; exact absurd h (List.not_mem_nil _)
  | cons p rest ih =>
    intro i x h
    rw [channelWrites] at h
    rcases List.mem_append.mp h with h1 | h2
    · by_cases hp : (mc ∨ p.1 ≠ p.2)
      · rw [if_pos hp] at h1
        exact Write.noConfusion (List.mem_singleton.mp h1)
      · rw [if_neg hp] at h1
        exact absurd h1 (List.not_mem_nil _)
    · exact ih (i + 1) x h2

/-- Characterization of the per-channel write loop on zipped snapshots:
channel `j` is written iff it indexes a position whose pair passed the
changed test. -/
theorem channelWrites_mem_iff (mc : Prop) [Decidable mc] :
    ∀ (olds news : List ℚ), olds.length = news.length →
      ∀ (i j : Nat),
      ((∃ x, Write.channel j x ∈ channelWrites mc i (olds.zip news)) ↔
        (∃ k, k < news.length ∧ j = i + k ∧ (mc ∨ olds.getD k 0 ≠ news.getD k 0))) := by
  intro olds
  induction olds with
  | nil =>
    intro news hlen i j
    have hn : news = [] := by
      cases news with
      | nil => rfl
      | cons n ns => simp at hlen
    subst hn
    constructor
    · rintro ⟨x, hx⟩
      exact absurd hx (List.not_mem_nil _)
    · rintro ⟨k, hk, _, _⟩
      simp at hk
  | cons o os ih =>
    intro news hlen i j
    cases news with
    | nil => simp at hlen
    | cons n ns =>
      have hlen2 : os.length = ns.length := by simpa using hlen
      rw [List.zip_cons_cons]
      constructor
      · rintro ⟨x, hx⟩
        rw [channelWrites] at hx
        rcases List.mem_append.mp hx with h1 | h2
        · by_cases hp : (mc ∨ (o, n).1 ≠ (o, n).2)
          · rw [if_pos hp] at h1
            have heq := List.mem_singleton.mp h1
            have hj : j = i := by
              injection heq with hji hxn
            refine ⟨0, by simp, by omega, ?_⟩
            simpa using hp
          · rw [if_neg hp] at h1
            exact absurd h1 (List.not_mem_nil _)
        · obtain ⟨k, hk, hj, hcond⟩ := (ih ns hlen2 (i + 1) j).mp ⟨x, h2⟩
          refine ⟨k + 1, by simpa using hk, by omega, ?_⟩
          simpa using hcond
      · rintro ⟨k, hk, hj, hcond⟩
        cases k with
        | zero =>
          have hp : mc ∨ (o, n).1 ≠ (o, n).2 := by simpa using hcond
          refine ⟨n, ?_⟩
          rw [channelWrites]
          apply List.mem_append.mpr
          apply Or.inl
          rw [if_pos hp]
          have hj0 : j = i := by omega
          rw [hj0]
          exact List.mem_singleton_self _
        | succ k2 =>
          have hcond2 : mc ∨ os.getD k2 0 ≠ ns.getD k2 0 := by simpa using hcond
          obtain ⟨x, hx⟩ := (ih ns hlen2 (i + 1) j).mpr
            ⟨k2, by simp at hk; omega, by omega, hcond2⟩
          refine ⟨x, ?_⟩
          rw [channelWrites]
          exact List.mem_append.mpr (Or.inr hx)

/-- With a false changed condition and identical snapshots, the
per-channel write loop issues nothing. -/
theorem channelWrites_zip_self (mc : Prop) [Decidable mc] (hmc : ¬ mc) :
    ∀ (l : List ℚ) (i : Nat), channelWrites mc i (l.zip l) = [] := by
  intro l
  induction l with
  | nil => intro i; rfl
  | cons z zs ih =>
    intro i
    rw [List.zip_cons_cons, channelWrites]
    rw [if_neg (by simp [hmc] : ¬ (mc ∨ (z, z).1 ≠ (z, z).2))]
    simpa using ih (i + 1)

/-- C6: once the guard passes, the master level is written iff it
differs from the initial snapshot under exact comparison; channel `i` is
written iff the master changed or channel `i` differs from its snapshot
under exact comparison; and committing a model whose master and channels
all equal the snapshot succeeds with zero device writes. -/
theorem C6_commit_write_conditions (v : Volume)
    (hlen : v.init_channels.length = v.channels.length) :
    ((∃ x, Write.master x ∈ v.commitWrites) ↔ v.master ≠ v.init_master) ∧
    (∀ i, i < v.channels.length →
      ((∃ x, Write.channel i x ∈ v.commitWrites) ↔
        (v.master ≠ v.init_master ∨ v.channels.getD i 0 ≠ v.init_channels.getD i 0))) ∧
    (v.master = v.init_master → v.channels = v.init_channels →
      ∀ force sr, v.commit force sr = .ok []) := by
  refine ⟨?_, ?_, ?_⟩
  · unfold Volume.commitWrites
    constructor
    · rintro ⟨x, hx⟩
      rcases List.mem_append.mp hx with h1 | h2
      · by_cases hm : v.master ≠ v.init_master
        · exact hm
        · rw [if_neg hm] at h1
          exact absurd h1 (List.not_mem_nil _)
      · exact absurd h2 (channelWrites_no_master _ _ _ _)
    · intro hm
      refine ⟨v.master, List.mem_append.mpr (Or.inl ?_)⟩
      rw [if_pos hm]
      exact List.mem_singleton_self _
  · intro i hi
    unfold Volume.commitWrites
    constructor
    · rintro ⟨x, hx⟩
      rcases List.mem_append.mp hx with h1 | h2
      · by_cases hm : v.master ≠ v.init_master
        · rw [if_pos hm] at h1
          exact Write.noConfusion (List.mem_singleton.mp h1)
        · rw [if_neg hm] at h1
          exact absurd h1 (List.not_mem_nil _)
      · obtain ⟨k, hk, hj, hcond⟩ :=
          (channelWrites_mem_iff _ _ _ hlen 0 i).mp ⟨x, h2⟩
        have hki : k = i := by omega
        subst hki
        rcases hcond with hmc | hne
        · exact Or.inl hmc
        · exact Or.inr (Ne.symm hne)
    · intro h
      have hcond : (v.master ≠ v.init_master) ∨
          v.init_channels.getD i 0 ≠ v.channels.getD i 0 := by
        rcases h with h | h
        · exact Or.inl h
        · exact Or.inr (Ne.symm h)
      obtain ⟨x, hx⟩ := (channelWrites_mem_iff _ _ _ hlen 0 i).mpr ⟨i, hi, by omega, hcond⟩
      exact ⟨x, List.mem_append.mpr (Or.inr hx)⟩
  · intro hm hch force sr
    unfold Volume.commit
    rw [if_neg (by
      rintro ⟨_, hlt, _⟩
      rw [hm] at hlt
      exact lt_irrefl _ hlt)]
    have hne : ¬ (v.master ≠ v.init_master) := fun hc => hc hm
    unfold Volume.commitWrites
    rw [if_neg hne, hch, channelWrites_zip_self _ hne]
    rfl

/-- Witness for C6: a changed channel is written, and an unchanged model
commits with zero writes. -/
theorem C6_commit_write_conditions_witness :
    (∃ x, Write.channel 1 x ∈ (Volume.mk (1/2) [1/2, 3/4] (1/2) [1/2, 1/2]).commitWrites) ∧
    (Volume.mk (1/2) [1/2] (1/2) [1/2]).commit false false = .ok [] := by
  constructor
  · exact ((C6_commit_write_conditions (Volume.mk (1/2) [1/2, 3/4] (1/2) [1/2, 1/2])
      rfl).2.1 1 (by norm_num)).mpr (Or.inr (by norm_num [List.getD]))
  · exact (C6_commit_write_conditions (Volume.mk (1/2) [1/2] (1/2) [1/2]) rfl).2.2
      rfl rfl false false

end Wol
